import Mathlib

/-!
Shallow embedding of the message-buffering and summary-dispatch core of
`soaringk/msg-asst` (Go), covering:

* `entity/chat/buffer.go` — per-room ring buffer (`Add`, `Clear`,
  `ShouldSummarize`, `GetSnapshot`, `GetRoomTopics`);
* `logic/summary` (`Generate`) — snapshot → LLM call → result/skip;
* `logic/bot/bot.go` (`triggerSummary`, `generateAndSendSummary`) —
  single-flight dispatch and clear-or-retain.

Modelling conventions:
* Go `time.Time` values attached to messages are modelled as `Nat` minute
  counts (only their `Format("15:04")` rendering and identity matter here);
  the per-room `lastSummaryTime` is modelled as `Option ℚ` (`none` is the Go
  zero `Time`, for which `IsZero()` is true), and "now" is passed explicitly
  where the Go code calls `time.Now()` / `time.Since`.
* Go `int` configuration fields compared against counts are modelled as `ℤ`;
  the buffer capacity (`MaxBufferSize`, used as a slice length) as `Nat`.
* The `haxmap` room map is modelled as an association list keyed by room
  topic; `map[string]struct{}` id-sets as duplicate-free `List String`.
* External effects (the LLM call, message delivery) are oracle parameters:
  `Option String` for the summarizer response (`none` = error, which also
  covers context cancellation) and `Bool` for delivery success.
-/

/-- `entity/chat`: content type tag. -/
inductive ContentType where
  | text
  | image
  | video
  | audio
  | pdf
  | file
deriving DecidableEq, Repr

/-- `entity/chat`: message content (tagged union). -/
structure Content where
  type : ContentType
  text : String
  data : List Nat
  mimeType : String
  fileName : String
deriving DecidableEq, Repr

instance : Inhabited Content := ⟨⟨.text, "", [], "", ""⟩⟩

/-- `entity/chat`: a normalized inbound message. Timestamps are minute
counts; `content` is `Option` because the Go field is a nullable pointer. -/
structure Message where
  id : String
  timestamp : Nat
  sender : String
  roomTopic : String
  content : Option Content
deriving DecidableEq, Repr

instance : Inhabited Message := ⟨⟨"", 0, "", "", none⟩⟩

/-- `entity/chat/buffer.go`: per-room state (`roomData`). -/
structure RoomData where
  messages : List Message
  writeIndex : Nat
  count : Nat
  capacity : Nat
  lastSummaryTime : Option ℚ
  messageIDs : List String
deriving DecidableEq, Repr

/-- `entity/config`: the summary-trigger and buffer-size configuration
fields read by the buffer. -/
structure Config where
  maxBufferSize : Nat
  minMessagesForSummary : ℤ
  messageCount : ℤ
  intervalMinutes : ℤ
deriving DecidableEq, Repr

/-- The room map of `MessageBuffer`, as an association list. -/
abbrev MessageBuffer := List (String × RoomData)

/-- `New()`: an empty buffer. -/
def MessageBuffer.new : MessageBuffer := []

/-- `b.rooms.Get(roomTopic)`: first entry with the given key. -/
def findRoom : MessageBuffer → String → Option RoomData
  | [], _ => none
  | (k, r) :: rest, topic => if k = topic then some r else findRoom rest topic

/-- Store an updated room under an existing key (in-place mutation of the
room pointed to by the map entry). -/
def setRoom : MessageBuffer → String → RoomData → MessageBuffer
  | [], _, _ => []
  | (k, r) :: rest, topic, newRoom =>
      if k = topic then (k, newRoom) :: rest else (k, r) :: setRoom rest topic newRoom

/-- `getOrCreateRoom`'s freshly computed room: zero-valued slots, zero
cursor/count, capacity from the current configuration, empty id set. -/
def freshRoom (capacity : Nat) : RoomData :=
  { messages := List.replicate capacity default
    writeIndex := 0
    count := 0
    capacity := capacity
    lastSummaryTime := none
    messageIDs := [] }

/-- The body of `Add` once the room is held: duplicate-id no-op, eviction of
the overwritten slot's id when full, write, cursor advance, count bump. -/
def RoomData.add (room : RoomData) (msg : Message) : RoomData :=
  if msg.id ∈ room.messageIDs then room
  else
    let ids :=
      if room.count = room.capacity then
        room.messageIDs.erase (room.messages.getD room.writeIndex default).id
      else room.messageIDs
    { room with
      messages := room.messages.set room.writeIndex msg
      messageIDs := msg.id :: ids
      writeIndex := (room.writeIndex + 1) % room.capacity
      count := if room.count < room.capacity then room.count + 1 else room.count }

/-- `MessageBuffer.Add`: get-or-create the room for the message's topic,
then run the `Add` body on it. -/
def MessageBuffer.add (cfg : Config) (b : MessageBuffer) (msg : Message) : MessageBuffer :=
  match findRoom b msg.roomTopic with
  | some room => setRoom b msg.roomTopic (room.add msg)
  | none => b ++ [(msg.roomTopic, (freshRoom cfg.maxBufferSize).add msg)]

/-- `GetRoomTopics`: all keys of the room map. -/
def MessageBuffer.getRoomTopics (b : MessageBuffer) : List String :=
  b.map Prod.fst

/-- `Clear(roomTopic)`: no-op when the room is absent; otherwise reset the
cursor, count and id set and stamp `lastSummaryTime = now`. Slots and
capacity are untouched. -/
def MessageBuffer.clear (b : MessageBuffer) (roomTopic : String) (now : ℚ) : MessageBuffer :=
  match findRoom b roomTopic with
  | none => b
  | some room =>
      setRoom b roomTopic
        { room with writeIndex := 0, count := 0, messageIDs := [], lastSummaryTime := some now }

/-- `ShouldSummarize(roomTopic, triggeredByKeyword)`: absent room → false;
count below the floor → false; keyword → true; volume trigger; interval
trigger (only when `lastSummaryTime` is non-zero); otherwise false. -/
def MessageBuffer.shouldSummarize (cfg : Config) (b : MessageBuffer) (roomTopic : String)
    (now : ℚ) (triggeredByKeyword : Bool) : Bool :=
  match findRoom b roomTopic with
  | none => false
  | some room =>
      if (room.count : ℤ) < cfg.minMessagesForSummary then false
      else if triggeredByKeyword then true
      else if cfg.messageCount > 0 ∧ (room.count : ℤ) ≥ cfg.messageCount then true
      else if cfg.intervalMinutes > 0 then
        match room.lastSummaryTime with
        | some last =>
            if now - last ≥ (cfg.intervalMinutes : ℚ) then true else false
        | none => false
      else false

/-- `Snapshot`: immutable projection of a room's resident messages. -/
structure Snapshot where
  count : Nat
  firstMsgTime : Option Nat
  lastMsgTime : Option Nat
  participants : Finset String
  contents : List Content
deriving DecidableEq

/-- Go `Format("15:04")` on a minute-count timestamp. -/
def formatHHMM (t : Nat) : String :=
  let pad := fun (n : Nat) => if n < 10 then "0" ++ toString n else toString n
  pad (t / 60 % 24) ++ ":" ++ pad (t % 60)

/-- The per-message header `fmt.Sprintf("[%s] %s:", ts, sender)` emitted by
`GetSnapshot`. -/
def headerContent (msg : Message) : Content :=
  { type := .text
    text := "[" ++ formatHHMM msg.timestamp ++ "] " ++ msg.sender ++ ":"
    data := []
    mimeType := ""
    fileName := "" }

/-- The logical start slot used by `GetSnapshot`: the write cursor once the
buffer has wrapped (`count == capacity`), else 0. -/
def startIndex (room : RoomData) : Nat :=
  if room.count = room.capacity then room.writeIndex else 0

/-- One iteration of the `GetSnapshot` loop on an already-read message:
record the sender, append the header item, and append the message's own
content when present. -/
def partsStep (acc : Finset String × List Content) (m : Message) :
    Finset String × List Content :=
  let withHeader := acc.2 ++ [headerContent m]
  (insert m.sender acc.1,
   match m.content with
   | some c => withHeader ++ [c]
   | none => withHeader)

/-- One iteration of the `GetSnapshot` loop: read slot
`(startIndex + i) % capacity` and process the message found there. -/
def snapStep (room : RoomData) (startIdx : Nat) (acc : Finset String × List Content)
    (i : Nat) : Finset String × List Content :=
  partsStep acc (room.messages.getD ((startIdx + i) % room.capacity) default)

/-- The body of `GetSnapshot` once the room is held: empty snapshot for an
empty room; otherwise walk `count` slots from the logical start. -/
def roomSnapshot (room : RoomData) : Snapshot :=
  if room.count = 0 then ⟨room.count, none, none, ∅, []⟩
  else
    let firstMsg := room.messages.getD (startIndex room) default
    let lastMsg :=
      room.messages.getD ((startIndex room + room.count - 1) % room.capacity) default
    let folded := (List.range room.count).foldl (snapStep room (startIndex room)) (∅, [])
    ⟨room.count, some firstMsg.timestamp, some lastMsg.timestamp, folded.1, folded.2⟩

/-- `GetSnapshot(roomTopic)`: empty snapshot for an absent room, else the
snapshot of its room. -/
def MessageBuffer.getSnapshot (b : MessageBuffer) (roomTopic : String) : Snapshot :=
  match findRoom b roomTopic with
  | none => ⟨0, none, none, ∅, []⟩
  | some room => roomSnapshot room

/-- `logic/summary`: `Result{Text, SkipReason}`. -/
structure Result where
  text : String
  skipReason : String
deriving DecidableEq, Repr

/-- `buildTimeRange(snapshot)`. -/
def buildTimeRange (snapshot : Snapshot) : String :=
  match snapshot.firstMsgTime, snapshot.lastMsgTime with
  | some first, some last => formatHHMM first ++ " - " ++ formatHHMM last
  | _, _ => "N/A"

/-- Go `strings.TrimSpace`: strip leading and trailing whitespace. -/
def trimSpace (s : String) : String :=
  ⟨((s.data.dropWhile Char.isWhitespace).reverse.dropWhile Char.isWhitespace).reverse⟩

/-- `generateHeader(snapshot, roomTopic)`; `dateStr` stands for the
`time.Now()` date rendering. -/
def generateHeader (snapshot : Snapshot) (roomTopic : String) (dateStr : String) : String :=
  "# 🤖 " ++ roomTopic ++ " 会议纪要\n📅 日期：" ++ dateStr ++ "\n⏰ 时间：" ++
    buildTimeRange snapshot ++ "\n"

/-- `Generate(ctx, buf, roomTopic)`: snapshot; empty buffer → benign skip;
LLM error → error (`Generate` wraps it, so the caller's
`err == context.Canceled` comparison is never true and cancellation follows
the same error path); blank or sentinel response → benign skip; otherwise a
headed summary text. `llmResp` is the summarizer oracle. -/
def generate (b : MessageBuffer) (roomTopic : String) (llmResp : Option String)
    (dateStr : String) : Except Unit Result :=
  let snapshot := b.getSnapshot roomTopic
  if snapshot.count = 0 ∨ snapshot.contents = [] then .ok ⟨"", "empty_buffer"⟩
  else
    match llmResp with
    | none => .error ()
    | some summary =>
        let trimmed := trimSpace summary
        if trimmed = "" ∨ trimmed = "暂无重要更新" then .ok ⟨"", "no_important_update"⟩
        else .ok ⟨generateHeader snapshot roomTopic dateStr ++ "\n\n" ++ trimmed, ""⟩

/-- Which exit path `generateAndSendSummary` took. -/
inductive DispatchOutcome where
  | genFailed
  | skipped (reason : String)
  | sendFailed
  | sent
deriving DecidableEq, Repr

/-- `generateAndSendSummary(roomTopic)`: error (or cancellation) → return
with the buffer untouched; `SkipReason` set → clear and return; delivery
failure → return with the buffer untouched; success → clear. `sendOk` is
the delivery oracle, `now` the clock read by `Clear`. -/
def generateAndSendSummary (b : MessageBuffer) (roomTopic : String) (llmResp : Option String)
    (dateStr : String) (sendOk : Bool) (now : ℚ) : MessageBuffer × DispatchOutcome :=
  match generate b roomTopic llmResp dateStr with
  | .error _ => (b, .genFailed)
  | .ok result =>
      if result.skipReason ≠ "" then (b.clear roomTopic now, .skipped result.skipReason)
      else if sendOk then (b.clear roomTopic now, .sent)
      else (b, .sendFailed)

/-- `triggerSummary(roomTopic)`, run to completion of its task: a
`LoadOrStore` hit is a silent no-op (`false` = no task ran); otherwise the
claim marker is inserted, the task runs, and the deferred `Delete` removes
the marker. `active` is the `activeSummaries` key set. -/
def triggerSummary (active : List String) (b : MessageBuffer) (roomTopic : String)
    (llmResp : Option String) (dateStr : String) (sendOk : Bool) (now : ℚ) :
    (List String × MessageBuffer) × Bool :=
  if roomTopic ∈ active then ((active, b), false)
  else
    let afterClaim := roomTopic :: active
    let afterTask := generateAndSendSummary b roomTopic llmResp dateStr sendOk now
    ((afterClaim.erase roomTopic, afterTask.1), true)

/-!
Interleaved model of the single-flight dispatcher. `sync.Map.LoadOrStore`
and the deferred `sync.Map.Delete` are atomic, so any concurrent execution
of `triggerSummary` linearizes into a sequence of two kinds of events per
goroutine: its `try` (the `LoadOrStore`), and — only if the `try` claimed —
its `finish` (the deferred `Delete` when `generateAndSendSummary` returns,
on every outcome). `running` tracks goroutines between their `try` and
`finish`.
-/

/-- Dispatcher state: claim markers (`activeSummaries` keys) and the keys of
currently running summarization tasks. -/
structure DispState where
  active : List String
  running : List String
deriving DecidableEq, Repr

/-- Atomic dispatcher events. -/
inductive DispEvent where
  | tryDispatch (key : String)
  | finish (key : String)
deriving DecidableEq, Repr

/-- One atomic event: `tryDispatch` is `LoadOrStore` (no-op on a hit, else
claim and start the task); `finish` is the deferred `Delete` of a running
task (guarded by membership, since only a running task can finish). -/
def dispStep (s : DispState) : DispEvent → DispState
  | .tryDispatch k =>
      if k ∈ s.active then s else ⟨k :: s.active, k :: s.running⟩
  | .finish k =>
      if k ∈ s.running then ⟨s.active.erase k, s.running.erase k⟩ else s

/-- The dispatcher state reached from idle after a sequence of events. -/
def dispRun (events : List DispEvent) : DispState :=
  events.foldl dispStep ⟨[], []⟩

/-!
Abstract chronological view of a room, and the spec-level snapshot of a
message list, used to state the order-preservation claims.
-/

/-- The resident messages of a room in chronological (oldest-first) order,
as read off the physical slots. -/
def residentList (room : RoomData) : List Message :=
  (List.range room.count).map
    (fun i => room.messages.getD ((startIndex room + i) % room.capacity) default)

/-- The content items one message contributes to a snapshot: its header,
then its own content when present. -/
def messageParts (msg : Message) : List Content :=
  headerContent msg ::
    (match msg.content with
     | some c => [c]
     | none => [])

/-- Modelled on the specification's description of the snapshot builder,
for refinement comparison: the snapshot determined by a chronologically
ordered message list. -/
def snapshotOfList (msgs : List Message) : Snapshot :=
  { count := msgs.length
    firstMsgTime := msgs.head?.map Message.timestamp
    lastMsgTime := msgs.getLast?.map Message.timestamp
    participants := (msgs.map Message.sender).toFinset
    contents := msgs.flatMap messageParts }

/-- The last `C` elements of a message sequence (all of it when shorter). -/
def lastK (msgs : List Message) (C : Nat) : List Message :=
  msgs.drop (msgs.length - C)

/-- Folding `Add` over a message sequence, room-level. -/
def RoomData.addAll (room : RoomData) (msgs : List Message) : RoomData :=
  msgs.foldl RoomData.add room

/-- Folding `Add` over a message sequence, buffer-level. -/
def MessageBuffer.addAll (cfg : Config) (b : MessageBuffer) (msgs : List Message) :
    MessageBuffer :=
  msgs.foldl (MessageBuffer.add cfg) b

/-!
Concrete sample data used to instantiate the general theorems.
-/

/-- Sample text content. -/
def cText (s : String) : Content := ⟨ContentType.text, s, [], "", ""⟩

/-- Sample messages with distinct ids, all for group `"g"`. -/
def cMsg1 : Message := ⟨"m1", 540, "alice", "g", some (cText "hi")⟩

def cMsg2 : Message := ⟨"m2", 541, "bob", "g", some (cText "hello")⟩

def cMsg3 : Message := ⟨"m3", 542, "alice", "g", some (cText "news")⟩

def cMsg4 : Message := ⟨"m4", 543, "carol", "g", some (cText "more")⟩

/-- Sample configuration: capacity 3, floor 1, volume and interval disabled. -/
def cCfg : Config := ⟨3, 1, 0, 0⟩

/-- Sample configuration: capacity 3, floor 1, volume disabled, 30-minute
interval trigger. -/
def cCfgInterval : Config := ⟨3, 1, 0, 30⟩

/-- A buffer holding exactly `cMsg1`. -/
def cBuf1 : MessageBuffer := MessageBuffer.add cCfg MessageBuffer.new cMsg1

/-- The room of `cBuf1`. -/
def cRoom1 : RoomData := (freshRoom 3).add cMsg1

/-- A buffer whose group `"g"` was flushed at time 0 and then received
`cMsg2`. -/
def cBufFlushed : MessageBuffer :=
  MessageBuffer.add cCfgInterval (MessageBuffer.clear cBuf1 "g" 0) cMsg2

/-- The room of `cBufFlushed`. -/
def cRoomFlushed : RoomData :=
  RoomData.add ⟨cRoom1.messages, 0, 0, 3, some 0, []⟩ cMsg2

lemma partsStep_eq (acc : Finset String × List Content) (m : Message) :
    partsStep acc m = (insert m.sender acc.1, acc.2 ++ messageParts m) := by
  cases h : m.content <;> simp [partsStep, messageParts, h]

lemma foldl_partsStep (l : List Message) (s : Finset String) (c : List Content) :
    l.foldl partsStep (s, c)
      = (s ∪ (l.map Message.sender).toFinset, c ++ l.flatMap messageParts) := by
  induction l generalizing s c with
  | nil => simp
  | cons m rest ih =>
      rw [List.foldl_cons, partsStep_eq, ih]
      refine Prod.ext ?_ ?_
      · simp [Finset.insert_union, Finset.union_insert]
      · simp

lemma snapStep_fold (room : RoomData) (startIdx n : Nat) :
    (List.range n).foldl (snapStep room startIdx) (∅, [])
      = (((List.range n).map
            (fun i => room.messages.getD ((startIdx + i) % room.capacity) default)).foldl
          partsStep (∅, [])) := by
  rw [List.foldl_map]
  rfl

/-- `roomSnapshot` refines the spec-level snapshot of the room's
chronological resident list, provided the start slot is a real slot index
whenever the room is nonempty. -/
lemma roomSnapshot_eq (room : RoomData)
    (hstart : room.count ≠ 0 → startIndex room < room.capacity) :
    roomSnapshot room = snapshotOfList (residentList room) := by
  by_cases hc : room.count = 0
  · simp [roomSnapshot, hc, snapshotOfList, residentList]
  · have hs := hstart hc
    have hcount : 0 < room.count := Nat.pos_of_ne_zero hc
    have hlen : (residentList room).length = room.count := by
      simp [residentList]
    have hfold := snapStep_fold room (startIndex room) room.count
    rw [foldl_partsStep] at hfold
    rw [roomSnapshot, if_neg hc, snapshotOfList, hfold]
    simp only [Snapshot.mk.injEq]
    refine ⟨hlen.symm, ?_, ?_, ?_, ?_⟩
    · rw [List.head?_eq_getElem?, List.getElem?_eq_getElem (by omega)]
      simp only [residentList, List.getElem_map, List.getElem_range]
      rw [Nat.add_zero, Nat.mod_eq_of_lt hs, Option.map_some']
    · rw [List.getLast?_eq_getElem?, hlen, List.getElem?_eq_getElem (by omega)]
      simp only [residentList, List.getElem_map, List.getElem_range]
      have harith : startIndex room + room.count - 1 = startIndex room + (room.count - 1) := by
        omega
      rw [harith, Option.map_some']
    · simp [residentList]
    · simp [residentList]

/-- `GetSnapshot` refines the spec-level snapshot of the room's chronological
resident list. -/
lemma getSnapshot_eq (b : MessageBuffer) (topic : String) (room : RoomData)
    (hfind : findRoom b topic = some room)
    (hstart : room.count ≠ 0 → startIndex room < room.capacity) :
    b.getSnapshot topic = snapshotOfList (residentList room) := by
  rw [MessageBuffer.getSnapshot, hfind]
  exact roomSnapshot_eq room hstart

/-!
Helper lemmas for the ring-buffer invariant.
-/

lemma getD_set_self (l : List Message) (i : Nat) (a d : Message) (h : i < l.length) :
    (l.set i a).getD i d = a := by
  rw [List.getD_eq_getElem _ _ (by simpa using h)]
  exact List.getElem_set_self ..

lemma getD_set_ne (l : List Message) (i j : Nat) (a d : Message) (hne : i ≠ j) :
    (l.set i a).getD j d = l.getD j d := by
  simp [List.getD_eq_getElem?_getD, List.getElem?_set_ne hne]

lemma add_mod_ne (C a k : Nat) (ha : a < C) (hk0 : 0 < k) (hk : k < C) :
    (a + k) % C ≠ a := by
  rcases Nat.lt_or_ge (a + k) C with h | h
  · rw [Nat.mod_eq_of_lt h]
    omega
  · rw [Nat.mod_eq_sub_mod h, Nat.mod_eq_of_lt (by omega)]
    omega

lemma residentList_getD (room : RoomData) (i : Nat) (h : i < room.count) :
    (residentList room).getD i default
      = room.messages.getD ((startIndex room + i) % room.capacity) default := by
  rw [residentList, List.getD_eq_getElem _ _ (by simpa using h)]
  simp

lemma residentList_length (room : RoomData) : (residentList room).length = room.count := by
  simp [residentList]

lemma reverse_map_erase_head (s : List Message) (hs : s ≠ [])
    (hnd : (s.map Message.id).Nodup) :
    ((s.map Message.id).reverse).erase (s.getD 0 default).id
      = ((s.drop 1).map Message.id).reverse := by
  obtain ⟨x, t, rfl⟩ : ∃ x t, s = x :: t := ⟨s.head hs, s.tail, (List.head_cons_tail s hs).symm⟩
  simp only [List.map_cons, List.reverse_cons, List.getD_cons_zero, List.drop_one,
    List.tail_cons]
  have hx : x.id ∉ (t.map Message.id).reverse := by
    simp only [List.map_cons] at hnd
    rw [List.mem_reverse]
    exact (List.nodup_cons.mp hnd).1
  rw [List.erase_append_right _ hx]
  simp

lemma lastK_length (msgs : List Message) (C : Nat) :
    (lastK msgs C).length = min msgs.length C := by
  simp [lastK]
  omega

lemma add_capacity (room : RoomData) (msg : Message) :
    (room.add msg).capacity = room.capacity := by
  rw [RoomData.add]
  split <;> rfl

lemma add_lastSummaryTime (room : RoomData) (msg : Message) :
    (room.add msg).lastSummaryTime = room.lastSummaryTime := by
  rw [RoomData.add]
  split <;> rfl

lemma add_messages (room : RoomData) (msg : Message) (h : msg.id ∉ room.messageIDs) :
    (room.add msg).messages = room.messages.set room.writeIndex msg := by
  rw [RoomData.add, if_neg h]

lemma add_writeIndex (room : RoomData) (msg : Message) (h : msg.id ∉ room.messageIDs) :
    (room.add msg).writeIndex = (room.writeIndex + 1) % room.capacity := by
  rw [RoomData.add, if_neg h]

lemma add_count (room : RoomData) (msg : Message) (h : msg.id ∉ room.messageIDs) :
    (room.add msg).count
      = if room.count < room.capacity then room.count + 1 else room.count := by
  rw [RoomData.add, if_neg h]

lemma add_messageIDs (room : RoomData) (msg : Message) (h : msg.id ∉ room.messageIDs) :
    (room.add msg).messageIDs
      = msg.id ::
          (if room.count = room.capacity then
            room.messageIDs.erase (room.messages.getD room.writeIndex default).id
          else room.messageIDs) := by
  rw [RoomData.add, if_neg h]

/-- The ring-buffer invariant: folding any distinct-id message sequence into
a fresh room of positive capacity `C` leaves the counters, the id set and
the chronological resident view in the stated normal form. -/
lemma fresh_addAll_inv (C : Nat) (hC : 0 < C) (msgs : List Message)
    (hids : (msgs.map Message.id).Nodup) :
    (RoomData.addAll (freshRoom C) msgs).capacity = C ∧
    (RoomData.addAll (freshRoom C) msgs).messages.length = C ∧
    (RoomData.addAll (freshRoom C) msgs).count = min msgs.length C ∧
    (RoomData.addAll (freshRoom C) msgs).writeIndex = msgs.length % C ∧
    (RoomData.addAll (freshRoom C) msgs).lastSummaryTime = none ∧
    (RoomData.addAll (freshRoom C) msgs).messageIDs
      = ((lastK msgs C).map Message.id).reverse ∧
    residentList (RoomData.addAll (freshRoom C) msgs) = lastK msgs C := by
  induction msgs using List.reverseRecOn with
  | nil =>
      refine ⟨rfl, by simp [RoomData.addAll, freshRoom],
        by simp [RoomData.addAll, freshRoom],
        by simp [RoomData.addAll, freshRoom], rfl,
        by simp [RoomData.addAll, freshRoom, lastK], ?_⟩
      simp [RoomData.addAll, freshRoom, residentList, lastK]
  | append_singleton l a ih =>
      rw [show ((l ++ [a]).map Message.id) = l.map Message.id ++ [a.id] by simp,
        List.nodup_append] at hids
      obtain ⟨hl, -, hdisj⟩ := hids
      have hanotl : a.id ∉ l.map Message.id := fun hmem => hdisj hmem (by simp)
      obtain ⟨hcap, hlen, hcnt, hwi, hlast, hidset, hres⟩ := ih hl
      set R := RoomData.addAll (freshRoom C) l with hR
      have hfold : RoomData.addAll (freshRoom C) (l ++ [a]) = R.add a := by
        rw [RoomData.addAll, List.foldl_append]
        rfl
      have hnotin : a.id ∉ R.messageIDs := by
        rw [hidset]
        intro hmem
        rw [List.mem_reverse] at hmem
        refine hanotl ?_
        have hsub : (lastK l C).map Message.id ⊆ l.map Message.id := by
          rw [lastK, List.map_drop]
          exact List.drop_subset _ _
        exact hsub hmem
      have hlen' : (R.add a).messages.length = C := by
        rw [add_messages R a hnotin, List.length_set, hlen]
      have hwi' : (R.add a).writeIndex = (l.length + 1) % C := by
        rw [add_writeIndex R a hnotin, hwi, hcap, Nat.mod_add_mod]
      rw [hfold]
      by_cases hNC : l.length < C
      · -- room not yet full: no eviction, count grows by one
        have hcntN : R.count = l.length := by rw [hcnt]; omega
        have hwiN : R.writeIndex = l.length := by rw [hwi]; exact Nat.mod_eq_of_lt hNC
        have hne_full : ¬(R.count = R.capacity) := by rw [hcntN, hcap]; omega
        have hlt_full : R.count < R.capacity := by rw [hcntN, hcap]; omega
        have hcount' : (R.add a).count = l.length + 1 := by
          rw [add_count R a hnotin, if_pos hlt_full, hcntN]
        have hlastKl : lastK l C = l := by
          rw [lastK, show l.length - C = 0 by omega, List.drop_zero]
        have hlastK' : lastK (l ++ [a]) C = l ++ [a] := by
          rw [lastK, show (l ++ [a]).length - C = 0 by simp; omega, List.drop_zero]
        have hstart' : startIndex (R.add a) = 0 := by
          rw [startIndex]
          by_cases hfull : (R.add a).count = (R.add a).capacity
          · rw [if_pos hfull, hwi']
            have : l.length + 1 = C := by
              rw [hcount', add_capacity R a, hcap] at hfull
              omega
            rw [this, Nat.mod_self]
          · rw [if_neg hfull]
        refine ⟨by rw [add_capacity, hcap], hlen', ?_, ?_, ?_, ?_, ?_⟩
        · rw [hcount']
          simp
          omega
        · rw [hwi']
          simp
        · rw [add_lastSummaryTime, hlast]
        · rw [add_messageIDs R a hnotin, if_neg hne_full, hidset, hlastKl, hlastK']
          simp
        · -- resident view: the new message is appended at the end
          rw [hlastK', residentList, hcount', hstart', add_capacity R a, hcap,
            add_messages R a hnotin]
          refine List.ext_getElem (by simp) ?_
          intro i h1 h2
          have hiN1 : i < l.length + 1 := by simpa using h1
          simp only [List.getElem_map, List.getElem_range]
          rw [Nat.zero_add, Nat.mod_eq_of_lt (by omega : i < C), hwiN]
          by_cases hiN : i = l.length
          · subst hiN
            rw [getD_set_self _ _ _ _ (by rw [hlen]; omega)]
            exact (List.getElem_concat_length l a _ rfl (by simp)).symm
          · rw [getD_set_ne _ _ _ _ _ (fun h => hiN h.symm)]
            have hgot := residentList_getD R i (by rw [hcntN]; omega)
            rw [hres, hlastKl] at hgot
            rw [startIndex, if_neg hne_full, Nat.zero_add, hcap,
              Nat.mod_eq_of_lt (by omega : i < C)] at hgot
            rw [← hgot, List.getD_eq_getElem l default (by omega)]
            exact (List.getElem_append_left (by omega)).symm
      · -- room full: oldest resident evicted, count stays at capacity
        have hcntC : R.count = C := by rw [hcnt]; omega
        have hfull : R.count = R.capacity := by rw [hcntC, hcap]
        have hwiN : R.writeIndex = l.length % C := hwi
        have hcount' : (R.add a).count = C := by
          rw [add_count R a hnotin, if_neg (by omega : ¬(R.count < R.capacity)), hcntC]
        have hstart' : startIndex (R.add a) = (l.length + 1) % C := by
          rw [startIndex, if_pos (by rw [hcount', add_capacity R a, hcap]), hwi']
        have hslen : (lastK l C).length = C := by
          rw [lastK_length]
          omega
        have hstR : startIndex R = l.length % C := by
          rw [startIndex, if_pos hfull, hwiN]
        -- the evicted slot holds the oldest resident message
        have hevict : R.messages.getD R.writeIndex default = (lastK l C).getD 0 default := by
          have hgot := residentList_getD R 0 (by omega)
          rw [hres, hstR, hcap, Nat.add_zero,
            Nat.mod_eq_of_lt (Nat.mod_lt _ hC)] at hgot
          rw [hwiN]
          exact hgot.symm
        have hsnd : ((lastK l C).map Message.id).Nodup := by
          rw [lastK, List.map_drop]
          exact hl.sublist (List.drop_sublist _ _)
        have hsne : lastK l C ≠ [] := by
          intro h
          rw [h] at hslen
          simp at hslen
          omega
        have hsdrop : lastK (l ++ [a]) C = (lastK l C).drop 1 ++ [a] := by
          rw [lastK, lastK, List.drop_drop, List.length_append, List.length_singleton,
            List.drop_append_of_le_length (by omega)]
          have : l.length + 1 - C = l.length - C + 1 := by omega
          rw [this]
        refine ⟨by rw [add_capacity, hcap], hlen', ?_, ?_, ?_, ?_, ?_⟩
        · rw [hcount']
          simp
          omega
        · rw [hwi']
          simp
        · rw [add_lastSummaryTime, hlast]
        · rw [add_messageIDs R a hnotin, if_pos hfull, hidset, hevict,
            reverse_map_erase_head _ hsne hsnd, hsdrop]
          simp
        · -- resident view: the oldest message drops off, the new one appends
          rw [residentList, hcount', hstart', add_capacity R a, hcap,
            add_messages R a hnotin, hsdrop]
          refine List.ext_getElem (by simp [hslen]; omega) ?_
          intro i h1 h2
          have hiC : i < C := by simpa using h1
          simp only [List.getElem_map, List.getElem_range]
          rw [Nat.mod_add_mod]
          by_cases hiC1 : i = C - 1
          · -- last logical position: the slot just overwritten with `a`
            have hidx : (l.length + 1 + i) % C = l.length % C := by
              subst hiC1
              rw [show l.length + 1 + (C - 1) = l.length + C by omega, Nat.add_mod_right]
            rw [hidx, ← hwiN, getD_set_self _ _ _ _ (by rw [hlen, hwiN]; exact Nat.mod_lt _ hC)]
            have hlen2 : ((lastK l C).drop 1).length = C - 1 := by
              simp [hslen]
            refine (List.getElem_concat_length _ _ i ?_ (by simpa using h2)).symm
            rw [hlen2, hiC1]
          · -- earlier logical positions: untouched slots of the old view
            have hidxne : R.writeIndex ≠ (l.length + 1 + i) % C := by
              rw [hwiN, show l.length + 1 + i = l.length + (i + 1) by omega, ← Nat.mod_add_mod]
              exact (add_mod_ne C (l.length % C) (i + 1) (Nat.mod_lt _ hC) (by omega)
                (by omega)).symm
            rw [getD_set_ne _ _ _ _ _ hidxne]
            have hgot := residentList_getD R (i + 1) (by rw [hcntC]; omega)
            rw [hres, hstR, hcap, Nat.mod_add_mod,
              show l.length + (i + 1) = l.length + 1 + i by omega] at hgot
            rw [← hgot, List.getD_eq_getElem _ _ (by rw [hslen]; omega)]
            rw [List.getElem_append_left (by simp [hslen]; omega)]
            rw [List.getElem_drop]
            congr 1
            omega



/-!
Buffer-level plumbing: how `findRoom` interacts with `setRoom`, `add`,
`clear`, and message sequences confined to one topic.
-/

lemma setRoom_self (b : MessageBuffer) (topic : String) (r : RoomData)
    (h : findRoom b topic = some r) : setRoom b topic r = b := by
  induction b with
  | nil => rfl
  | cons entry rest ih =>
      obtain ⟨k, r0⟩ := entry
      rw [setRoom]
      rw [findRoom] at h
      by_cases hk : k = topic
      · rw [if_pos hk] at h ⊢
        obtain rfl : r0 = r := by injection h
        rfl
      · rw [if_neg hk] at h ⊢
        rw [ih h]

lemma findRoom_setRoom_self (b : MessageBuffer) (topic : String) (r0 r : RoomData)
    (h : findRoom b topic = some r0) : findRoom (setRoom b topic r) topic = some r := by
  induction b with
  | nil => exact absurd h (by rw [findRoom]; simp)
  | cons entry rest ih =>
      obtain ⟨k, r1⟩ := entry
      rw [findRoom] at h
      rw [setRoom]
      by_cases hk : k = topic
      · rw [if_pos hk, findRoom, if_pos hk]
      · rw [if_neg hk] at h
        rw [if_neg hk, findRoom, if_neg hk]
        exact ih h

lemma findRoom_setRoom_ne (b : MessageBuffer) (k topic : String) (r : RoomData)
    (h : k ≠ topic) : findRoom (setRoom b k r) topic = findRoom b topic := by
  induction b with
  | nil => rfl
  | cons entry rest ih =>
      obtain ⟨k0, r0⟩ := entry
      rw [setRoom]
      by_cases hk : k0 = k
      · rw [if_pos hk, findRoom, findRoom]
        subst hk
        rw [if_neg h, if_neg h]
      · rw [if_neg hk, findRoom, findRoom]
        by_cases hk2 : k0 = topic
        · rw [if_pos hk2, if_pos hk2]
        · rw [if_neg hk2, if_neg hk2]
          exact ih

lemma findRoom_append_ne (b : MessageBuffer) (k topic : String) (r : RoomData)
    (h : k ≠ topic) : findRoom (b ++ [(k, r)]) topic = findRoom b topic := by
  induction b with
  | nil => simp [findRoom, h]
  | cons entry rest ih =>
      obtain ⟨k0, r0⟩ := entry
      rw [List.cons_append, findRoom, findRoom]
      by_cases hk : k0 = topic
      · rw [if_pos hk, if_pos hk]
      · rw [if_neg hk, if_neg hk]
        exact ih

lemma findRoom_add_ne (cfg : Config) (b : MessageBuffer) (m : Message) (topic : String)
    (h : m.roomTopic ≠ topic) :
    findRoom (MessageBuffer.add cfg b m) topic = findRoom b topic := by
  rw [MessageBuffer.add]
  cases hfind : findRoom b m.roomTopic with
  | some room => exact findRoom_setRoom_ne b m.roomTopic topic _ h
  | none => exact findRoom_append_ne b m.roomTopic topic _ h

lemma findRoom_addAll_ne (cfg : Config) (msgs : List Message) (topic : String)
    (h : ∀ m ∈ msgs, m.roomTopic ≠ topic) (b : MessageBuffer) :
    findRoom (MessageBuffer.addAll cfg b msgs) topic = findRoom b topic := by
  induction msgs generalizing b with
  | nil => rfl
  | cons m rest ih =>
      rw [MessageBuffer.addAll, List.foldl_cons]
      rw [show List.foldl (MessageBuffer.add cfg) (MessageBuffer.add cfg b m) rest
          = MessageBuffer.addAll cfg (MessageBuffer.add cfg b m) rest from rfl]
      rw [ih (fun x hx => h x (by simp [hx])) _]
      exact findRoom_add_ne cfg b m topic (h m (by simp))

lemma addAll_single_room (cfg : Config) (topic : String) (msgs : List Message)
    (h : ∀ m ∈ msgs, m.roomTopic = topic) (r : RoomData) :
    MessageBuffer.addAll cfg [(topic, r)] msgs = [(topic, RoomData.addAll r msgs)] := by
  induction msgs generalizing r with
  | nil => rfl
  | cons m rest ih =>
      rw [MessageBuffer.addAll, List.foldl_cons]
      have hm : m.roomTopic = topic := h m (by simp)
      have hstep : MessageBuffer.add cfg [(topic, r)] m = [(topic, r.add m)] := by
        rw [MessageBuffer.add, hm]
        rw [show findRoom [(topic, r)] topic = some r by rw [findRoom, if_pos rfl]]
        simp [setRoom]
      rw [hstep]
      rw [show List.foldl (MessageBuffer.add cfg) [(topic, r.add m)] rest
          = MessageBuffer.addAll cfg [(topic, r.add m)] rest from rfl]
      rw [ih (fun x hx => h x (by simp [hx])) (r.add m), RoomData.addAll, RoomData.addAll,
        List.foldl_cons]

lemma addAll_new_single (cfg : Config) (topic : String) (m : Message) (rest : List Message)
    (h : ∀ x ∈ m :: rest, x.roomTopic = topic) :
    MessageBuffer.addAll cfg MessageBuffer.new (m :: rest)
      = [(topic, RoomData.addAll (freshRoom cfg.maxBufferSize) (m :: rest))] := by
  have hm : m.roomTopic = topic := h m (by simp)
  rw [MessageBuffer.addAll, List.foldl_cons]
  have hstep : MessageBuffer.add cfg MessageBuffer.new m
      = [(topic, (freshRoom cfg.maxBufferSize).add m)] := by
    rw [MessageBuffer.add, MessageBuffer.new]
    rw [show findRoom [] m.roomTopic = none from rfl]
    rw [hm]
    rfl
  rw [hstep]
  rw [show List.foldl (MessageBuffer.add cfg) [(topic, (freshRoom cfg.maxBufferSize).add m)] rest
      = MessageBuffer.addAll cfg [(topic, (freshRoom cfg.maxBufferSize).add m)] rest from rfl]
  rw [addAll_single_room cfg topic rest (fun x hx => h x (by simp [hx])) _, RoomData.addAll,
    RoomData.addAll, List.foldl_cons]

lemma clear_getSnapshot_count (b : MessageBuffer) (topic : String) (now : ℚ) :
    ((MessageBuffer.clear b topic now).getSnapshot topic).count = 0 := by
  rw [MessageBuffer.clear]
  cases hfind : findRoom b topic with
  | none => rw [MessageBuffer.getSnapshot, hfind]
  | some room =>
      have h2 := findRoom_setRoom_self b topic room
        ⟨room.messages, 0, 0, room.capacity, some now, []⟩ hfind
      simp [MessageBuffer.getSnapshot, h2, roomSnapshot]

/-!
Single-flight invariant of the dispatcher event model.
-/

lemma dispStep_preserves (s : DispState) (e : DispEvent)
    (h1 : s.active = s.running) (h2 : s.active.Nodup) :
    (dispStep s e).active = (dispStep s e).running ∧ (dispStep s e).active.Nodup := by
  cases e with
  | tryDispatch k =>
      rw [dispStep]
      by_cases hk : k ∈ s.active
      · rw [if_pos hk]
        exact ⟨h1, h2⟩
      · rw [if_neg hk]
        exact ⟨by rw [h1], List.nodup_cons.mpr ⟨hk, h2⟩⟩
  | finish k =>
      rw [dispStep]
      by_cases hk : k ∈ s.running
      · rw [if_pos hk]
        exact ⟨by rw [h1], h2.erase k⟩
      · rw [if_neg hk]
        exact ⟨h1, h2⟩

lemma dispRun_inv (events : List DispEvent) :
    (dispRun events).active = (dispRun events).running ∧ (dispRun events).active.Nodup := by
  induction events using List.reverseRecOn with
  | nil => exact ⟨rfl, List.nodup_nil⟩
  | append_singleton evs e ih =>
      rw [dispRun, List.foldl_append]
      exact dispStep_preserves _ e ih.1 ih.2

lemma addAll_room_inv (cfg : Config) (topic : String) (m : Message) (rest : List Message)
    (hC : 0 < cfg.maxBufferSize)
    (htop : ∀ x ∈ m :: rest, x.roomTopic = topic)
    (hids : ((m :: rest).map Message.id).Nodup) :
    findRoom (MessageBuffer.addAll cfg MessageBuffer.new (m :: rest)) topic
        = some (RoomData.addAll (freshRoom cfg.maxBufferSize) (m :: rest)) ∧
      (RoomData.addAll (freshRoom cfg.maxBufferSize) (m :: rest)).capacity
        = cfg.maxBufferSize ∧
      (RoomData.addAll (freshRoom cfg.maxBufferSize) (m :: rest)).count
        = min (m :: rest).length cfg.maxBufferSize ∧
      (RoomData.addAll (freshRoom cfg.maxBufferSize) (m :: rest)).messageIDs
        = ((lastK (m :: rest) cfg.maxBufferSize).map Message.id).reverse ∧
      residentList (RoomData.addAll (freshRoom cfg.maxBufferSize) (m :: rest))
        = lastK (m :: rest) cfg.maxBufferSize ∧
      ((RoomData.addAll (freshRoom cfg.maxBufferSize) (m :: rest)).count ≠ 0 →
        startIndex (RoomData.addAll (freshRoom cfg.maxBufferSize) (m :: rest))
          < (RoomData.addAll (freshRoom cfg.maxBufferSize) (m :: rest)).capacity) := by
  obtain ⟨hcap, hlen, hcnt, hwi, hlast, hidset, hres⟩ :=
    fresh_addAll_inv cfg.maxBufferSize hC (m :: rest) hids
  refine ⟨?_, hcap, hcnt, hidset, hres, ?_⟩
  · rw [addAll_new_single cfg topic m rest htop, findRoom, if_pos rfl]
  · intro _
    rw [startIndex]
    by_cases hfull : (RoomData.addAll (freshRoom cfg.maxBufferSize) (m :: rest)).count
        = (RoomData.addAll (freshRoom cfg.maxBufferSize) (m :: rest)).capacity
    · rw [if_pos hfull, hwi, hcap]
      exact Nat.mod_lt _ hC
    · rw [if_neg hfull, hcap]
      exact hC

lemma roomSnapshot_contents_ne_nil (room : RoomData)
    (h : (roomSnapshot room).count ≠ 0) : (roomSnapshot room).contents ≠ [] := by
  by_cases hc : room.count = 0
  · rw [roomSnapshot, if_pos hc] at h
    exact absurd hc h
  · have hfold := snapStep_fold room (startIndex room) room.count
    rw [foldl_partsStep] at hfold
    rw [roomSnapshot, if_neg hc]
    simp only [hfold, List.nil_append]
    intro hnil
    obtain ⟨n, hn⟩ : ∃ n, room.count = n + 1 := ⟨room.count - 1, by omega⟩
    rw [hn, List.range_succ_eq_map, List.map_cons, List.flatMap_cons] at hnil
    have hpart :
        messageParts (room.messages.getD ((startIndex room + 0) % room.capacity) default)
          = [] :=
      (List.append_eq_nil.mp hnil).1
    rw [messageParts] at hpart
    exact List.cons_ne_nil _ _ hpart

lemma getSnapshot_contents_ne_nil (b : MessageBuffer) (topic : String)
    (h : ((b.getSnapshot topic).count ≠ 0)) : (b.getSnapshot topic).contents ≠ [] := by
  rw [MessageBuffer.getSnapshot] at h ⊢
  cases hfind : findRoom b topic with
  | none =>
      rw [hfind] at h
      exact absurd rfl h
  | some room =>
      rw [hfind] at h
      exact roomSnapshot_contents_ne_nil room h

/-!
Claim theorems.
-/

/-- Claim C3: `ShouldSummarize` returns false whenever the room's count is
below `min_messages`, regardless of keyword, volume, or interval signals;
with the floor met, a keyword forces true for every configuration (in
particular with volume and interval disabled); and with the floor met, a
positive `message_count_threshold` reached by the count forces true
independent of the keyword flag. -/
theorem claimC3 (cfg : Config) (b : MessageBuffer) (topic : String)
    (room : RoomData) (now : ℚ) (hfind : findRoom b topic = some room) :
    ((room.count : ℤ) < cfg.minMessagesForSummary →
      ∀ kw, MessageBuffer.shouldSummarize cfg b topic now kw = false) ∧
    ((room.count : ℤ) ≥ cfg.minMessagesForSummary →
      MessageBuffer.shouldSummarize cfg b topic now true = true) ∧
    ((room.count : ℤ) ≥ cfg.minMessagesForSummary → cfg.messageCount > 0 →
      (room.count : ℤ) ≥ cfg.messageCount →
      ∀ kw, MessageBuffer.shouldSummarize cfg b topic now kw = true) := by
  refine ⟨?_, ?_, ?_⟩
  · intro hlow kw
    rw [MessageBuffer.shouldSummarize, hfind]
    simp only [if_pos hlow]
  · intro hge
    rw [MessageBuffer.shouldSummarize, hfind]
    simp [if_neg (not_lt.mpr hge)]
  · intro hge hpos hreach kw
    rw [MessageBuffer.shouldSummarize, hfind]
    simp only [if_neg (not_lt.mpr hge)]
    cases kw with
    | true => simp
    | false => simp [hpos, hreach]

/-- Witness for C3 at concrete inputs. -/
theorem claimC3_witness :
    MessageBuffer.shouldSummarize ⟨3, 2, 0, 0⟩ cBuf1 "g" 0 true = false ∧
    MessageBuffer.shouldSummarize ⟨3, 1, 0, 0⟩ cBuf1 "g" 0 true = true ∧
    MessageBuffer.shouldSummarize ⟨3, 1, 1, 0⟩ cBuf1 "g" 0 false = true :=
  ⟨(claimC3 ⟨3, 2, 0, 0⟩ cBuf1 "g" cRoom1 0 (by decide)).1 (by decide) true,
   (claimC3 ⟨3, 1, 0, 0⟩ cBuf1 "g" cRoom1 0 (by decide)).2.1 (by decide),
   (claimC3 ⟨3, 1, 1, 0⟩ cBuf1 "g" cRoom1 0 (by decide)).2.2 (by decide) (by decide)
     (by decide) false⟩

/-- Claim C8: re-adding a message whose id is already resident in its group
is an idempotent no-op — the whole buffer (count, slot contents,
chronological order, cursor, id set) is unchanged, and no error occurs. -/
theorem claimC8 (cfg : Config) (b : MessageBuffer) (msg : Message) (room : RoomData)
    (hfind : findRoom b msg.roomTopic = some room)
    (hdup : msg.id ∈ room.messageIDs) :
    MessageBuffer.add cfg b msg = b := by
  rw [MessageBuffer.add, hfind]
  show setRoom b msg.roomTopic (room.add msg) = b
  rw [show room.add msg = room from by rw [RoomData.add, if_pos hdup]]
  exact setRoom_self b msg.roomTopic room hfind

/-- Witness for C8: re-adding `cMsg1` to a buffer already holding it. -/
theorem claimC8_witness : MessageBuffer.add cCfg cBuf1 cMsg1 = cBuf1 :=
  claimC8 cCfg cBuf1 cMsg1 cRoom1 (by decide) (by decide)

/-- Claim C9: `Clear` on an existing group resets `count` and `write_cursor`
to 0 and the id set to empty, stamps `last_flush_time` with the current
time, and leaves the capacity and the slot array untouched. -/
theorem claimC9 (b : MessageBuffer) (topic : String) (room : RoomData) (now : ℚ)
    (hfind : findRoom b topic = some room) :
    findRoom (MessageBuffer.clear b topic now) topic
      = some ⟨room.messages, 0, 0, room.capacity, some now, []⟩ := by
  rw [MessageBuffer.clear, hfind]
  exact findRoom_setRoom_self b topic room _ hfind

/-- Witness for C9 on the one-message buffer. -/
theorem claimC9_witness :
    findRoom (MessageBuffer.clear cBuf1 "g" 7) "g"
      = some ⟨cRoom1.messages, 0, 0, cRoom1.capacity, some 7, []⟩ :=
  claimC9 cBuf1 "g" cRoom1 7 (by decide)

/-- Claim C10: for a group key never passed to `Add`, the remaining public
operations are total and effect-free: no room exists for it,
`ShouldSummarize` is false, `GetSnapshot` is the empty snapshot (count 0, no
timestamps, no participants, no contents), and `Clear` leaves the buffer
unchanged — only `Add` creates group state. -/
theorem claimC10 (cfg : Config) (msgs : List Message) (topic : String)
    (h : ∀ m ∈ msgs, m.roomTopic ≠ topic) (now : ℚ) (kw : Bool) :
    findRoom (MessageBuffer.addAll cfg MessageBuffer.new msgs) topic = none ∧
    MessageBuffer.shouldSummarize cfg (MessageBuffer.addAll cfg MessageBuffer.new msgs)
      topic now kw = false ∧
    MessageBuffer.getSnapshot (MessageBuffer.addAll cfg MessageBuffer.new msgs) topic
      = ⟨0, none, none, ∅, []⟩ ∧
    MessageBuffer.clear (MessageBuffer.addAll cfg MessageBuffer.new msgs) topic now
      = MessageBuffer.addAll cfg MessageBuffer.new msgs := by
  have hnone : findRoom (MessageBuffer.addAll cfg MessageBuffer.new msgs) topic = none := by
    rw [findRoom_addAll_ne cfg msgs topic h MessageBuffer.new]
    rfl
  refine ⟨hnone, ?_, ?_, ?_⟩
  · rw [MessageBuffer.shouldSummarize, hnone]
  · rw [MessageBuffer.getSnapshot, hnone]
  · rw [MessageBuffer.clear, hnone]

/-- Witness for C10: the key `"h"` after adding messages only for `"g"`. -/
theorem claimC10_witness :
    findRoom (MessageBuffer.addAll cCfg MessageBuffer.new [cMsg1, cMsg2]) "h" = none ∧
    MessageBuffer.shouldSummarize cCfg (MessageBuffer.addAll cCfg MessageBuffer.new
      [cMsg1, cMsg2]) "h" 5 true = false ∧
    MessageBuffer.getSnapshot (MessageBuffer.addAll cCfg MessageBuffer.new [cMsg1, cMsg2]) "h"
      = ⟨0, none, none, ∅, []⟩ ∧
    MessageBuffer.clear (MessageBuffer.addAll cCfg MessageBuffer.new [cMsg1, cMsg2]) "h" 5
      = MessageBuffer.addAll cCfg MessageBuffer.new [cMsg1, cMsg2] :=
  claimC10 cCfg [cMsg1, cMsg2] "h" (by decide) 5 true

/-- Counterexample to claim C2: a group holding one message (count 1 ≥
min_messages 1), keyword false, volume trigger disabled (threshold 0),
interval_minutes 30 > 0, and no flush ever (`lastSummaryTime` is the zero
time) — yet `ShouldSummarize` returns `false`, not `true` as claimed: the
interval branch requires a non-zero `lastSummaryTime`. -/
theorem claimC2_counterexample :
    findRoom cBuf1 "g" = some cRoom1 ∧
    cRoom1.count = 1 ∧
    cCfgInterval.minMessagesForSummary = 1 ∧
    cCfgInterval.messageCount = 0 ∧
    cCfgInterval.intervalMinutes = 30 ∧
    cRoom1.lastSummaryTime = none ∧
    MessageBuffer.shouldSummarize cCfgInterval cBuf1 "g" 1000 false = false := by
  refine ⟨by decide, by decide, by decide, by decide, by decide, by decide, by decide⟩

/-- Claim C2 as amended: with the floor met, keyword false, the volume
trigger not firing and `interval_minutes > 0`, `ShouldSummarize` returns
`false` when no flush has ever happened (the interval trigger does not fire
on "no prior flush"); it fires only when a prior flush exists and at least
`interval_minutes` minutes have elapsed since it. -/
theorem claimC2_amended (cfg : Config) (b : MessageBuffer) (topic : String)
    (room : RoomData) (now : ℚ) (hfind : findRoom b topic = some room)
    (hmin : (room.count : ℤ) ≥ cfg.minMessagesForSummary)
    (hvol : ¬(cfg.messageCount > 0 ∧ (room.count : ℤ) ≥ cfg.messageCount))
    (hint : cfg.intervalMinutes > 0) :
    (room.lastSummaryTime = none →
      MessageBuffer.shouldSummarize cfg b topic now false = false) ∧
    (∀ last : ℚ, room.lastSummaryTime = some last → now - last ≥ (cfg.intervalMinutes : ℚ) →
      MessageBuffer.shouldSummarize cfg b topic now false = true) := by
  constructor
  · intro hnone
    rw [MessageBuffer.shouldSummarize, hfind]
    simp [if_neg (not_lt.mpr hmin), hvol, hint, hnone]
  · intro last hsome helapsed
    rw [MessageBuffer.shouldSummarize, hfind]
    simp [if_neg (not_lt.mpr hmin), hvol, hint, hsome, helapsed]

/-- Witness for the amended C2: the never-flushed group yields `false`; the
flushed group yields `true` once the interval has elapsed. -/
theorem claimC2_amended_witness :
    MessageBuffer.shouldSummarize cCfgInterval cBuf1 "g" 1000 false = false ∧
    MessageBuffer.shouldSummarize cCfgInterval cBufFlushed "g" 31 false = true :=
  ⟨(claimC2_amended cCfgInterval cBuf1 "g" cRoom1 1000 (by decide) (by decide) (by decide)
      (by decide)).1 (by decide),
   (claimC2_amended cCfgInterval cBufFlushed "g" cRoomFlushed 31 (by decide) (by decide)
      (by decide) (by decide)).2 0 (by decide) (by norm_num [cCfgInterval])⟩

/-- Claim C4: for any sequence of `Add` calls with pairwise-distinct ids
into one group of capacity `C > 0` (every prefix being such a sequence
itself, this covers every intermediate state), the resident count never
exceeds `C`, the set of resident ids equals the at-most-`C`
most-recently-added ids, and `count = |seen_ids|`. -/
theorem claimC4 (cfg : Config) (topic : String) (m : Message) (rest : List Message)
    (hC : 0 < cfg.maxBufferSize)
    (htop : ∀ x ∈ m :: rest, x.roomTopic = topic)
    (hids : ((m :: rest).map Message.id).Nodup) :
    ∃ room,
      findRoom (MessageBuffer.addAll cfg MessageBuffer.new (m :: rest)) topic = some room ∧
      room.count ≤ cfg.maxBufferSize ∧
      room.count = room.messageIDs.length ∧
      room.messageIDs.toFinset
        = ((lastK (m :: rest) cfg.maxBufferSize).map Message.id).toFinset := by
  obtain ⟨hfind, hcap, hcnt, hidset, hres, hstart⟩ :=
    addAll_room_inv cfg topic m rest hC htop hids
  refine ⟨_, hfind, ?_, ?_, ?_⟩
  · rw [hcnt]
    omega
  · rw [hcnt, hidset, List.length_reverse, List.length_map, lastK_length]
  · rw [hidset, List.toFinset_reverse]

/-- Witness for C4: four distinct-id messages into capacity 3. -/
theorem claimC4_witness :
    ∃ room,
      findRoom (MessageBuffer.addAll cCfg MessageBuffer.new
        (cMsg1 :: [cMsg2, cMsg3, cMsg4])) "g" = some room ∧
      room.count ≤ cCfg.maxBufferSize ∧
      room.count = room.messageIDs.length ∧
      room.messageIDs.toFinset
        = ((lastK (cMsg1 :: [cMsg2, cMsg3, cMsg4]) cCfg.maxBufferSize).map
            Message.id).toFinset :=
  claimC4 cCfg "g" cMsg1 [cMsg2, cMsg3, cMsg4] (by decide) (by decide) (by decide)

/-- Claim C5: snapshot order equals `Add` call order. For `N ≤ C` adds the
snapshot is exactly the spec-level snapshot of the full add sequence; for
`N = C + k` adds (`0 < k < C`) it is the snapshot of the last `C` adds — its
first entry the `(k+1)`-th added message, its last entry the most recent;
and concretely with capacity 3, adding `m1..m4` yields the snapshot of
`[m2, m3, m4]` with count 3. -/
theorem claimC5 :
    (∀ (cfg : Config) (topic : String) (msgs : List Message),
        0 < cfg.maxBufferSize →
        (∀ x ∈ msgs, x.roomTopic = topic) →
        (msgs.map Message.id).Nodup →
        msgs.length ≤ cfg.maxBufferSize →
        (MessageBuffer.addAll cfg MessageBuffer.new msgs).getSnapshot topic
          = snapshotOfList msgs) ∧
    (∀ (cfg : Config) (topic : String) (msgs : List Message) (k : Nat),
        0 < cfg.maxBufferSize →
        (∀ x ∈ msgs, x.roomTopic = topic) →
        (msgs.map Message.id).Nodup →
        msgs.length = cfg.maxBufferSize + k →
        0 < k → k < cfg.maxBufferSize →
        (MessageBuffer.addAll cfg MessageBuffer.new msgs).getSnapshot topic
            = snapshotOfList (msgs.drop k) ∧
          ((MessageBuffer.addAll cfg MessageBuffer.new msgs).getSnapshot topic).firstMsgTime
            = some (msgs.getD k default).timestamp ∧
          ((MessageBuffer.addAll cfg MessageBuffer.new msgs).getSnapshot topic).lastMsgTime
            = some (msgs.getD (msgs.length - 1) default).timestamp) ∧
    ((MessageBuffer.addAll cCfg MessageBuffer.new [cMsg1, cMsg2, cMsg3, cMsg4]).getSnapshot "g"
        = snapshotOfList [cMsg2, cMsg3, cMsg4]) ∧
    ((MessageBuffer.addAll cCfg MessageBuffer.new [cMsg1, cMsg2, cMsg3, cMsg4]).getSnapshot
        "g").count = 3 := by
  have part1 : ∀ (cfg : Config) (topic : String) (msgs : List Message),
      0 < cfg.maxBufferSize →
      (∀ x ∈ msgs, x.roomTopic = topic) →
      (msgs.map Message.id).Nodup →
      msgs.length ≤ cfg.maxBufferSize →
      (MessageBuffer.addAll cfg MessageBuffer.new msgs).getSnapshot topic
        = snapshotOfList msgs := by
    intro cfg topic msgs hC htop hids hlen
    cases msgs with
    | nil =>
        show MessageBuffer.getSnapshot MessageBuffer.new topic = snapshotOfList []
        rw [MessageBuffer.getSnapshot]
        rw [show findRoom MessageBuffer.new topic = none from rfl]
        simp [snapshotOfList]
    | cons m rest =>
        obtain ⟨hfind, hcap, hcnt, hidset, hres, hstart⟩ :=
          addAll_room_inv cfg topic m rest hC htop hids
        rw [getSnapshot_eq _ topic _ hfind hstart, hres,
          lastK, show (m :: rest).length - cfg.maxBufferSize = 0 by omega, List.drop_zero]
  have part2 : ∀ (cfg : Config) (topic : String) (msgs : List Message) (k : Nat),
      0 < cfg.maxBufferSize →
      (∀ x ∈ msgs, x.roomTopic = topic) →
      (msgs.map Message.id).Nodup →
      msgs.length = cfg.maxBufferSize + k →
      0 < k → k < cfg.maxBufferSize →
      (MessageBuffer.addAll cfg MessageBuffer.new msgs).getSnapshot topic
          = snapshotOfList (msgs.drop k) ∧
        ((MessageBuffer.addAll cfg MessageBuffer.new msgs).getSnapshot topic).firstMsgTime
          = some (msgs.getD k default).timestamp ∧
        ((MessageBuffer.addAll cfg MessageBuffer.new msgs).getSnapshot topic).lastMsgTime
          = some (msgs.getD (msgs.length - 1) default).timestamp := by
    intro cfg topic msgs k hC htop hids hlenk hk0 hkC
    have hlenpos : msgs ≠ [] := by
      intro h
      rw [h] at hlenk
      simp at hlenk
      omega
    obtain ⟨m, rest, rfl⟩ : ∃ m rest, msgs = m :: rest := by
      cases msgs with
      | nil => exact absurd rfl hlenpos
      | cons m rest => exact ⟨m, rest, rfl⟩
    obtain ⟨hfind, hcap, hcnt, hidset, hres, hstart⟩ :=
      addAll_room_inv cfg topic m rest hC htop hids
    have heq : (MessageBuffer.addAll cfg MessageBuffer.new (m :: rest)).getSnapshot topic
        = snapshotOfList ((m :: rest).drop k) := by
      rw [getSnapshot_eq _ topic _ hfind hstart, hres,
        lastK, show (m :: rest).length - cfg.maxBufferSize = k by omega]
    refine ⟨heq, ?_, ?_⟩
    · rw [heq, snapshotOfList]
      have hhead : ((m :: rest).drop k).head? = some ((m :: rest).getD k default) := by
        rw [List.head?_eq_getElem?, List.getElem?_drop, Nat.add_zero,
          List.getElem?_eq_getElem (by omega), List.getD_eq_getElem _ _ (by omega)]
      rw [hhead, Option.map_some']
    · rw [heq, snapshotOfList]
      have hidx : k + ((m :: rest).length - k - 1) = (m :: rest).length - 1 := by omega
      have hlast : ((m :: rest).drop k).getLast?
          = some ((m :: rest).getD ((m :: rest).length - 1) default) := by
        rw [List.getLast?_eq_getElem?, List.length_drop, List.getElem?_drop, hidx,
          List.getElem?_eq_getElem (by omega), List.getD_eq_getElem _ _ (by omega)]
      rw [hlast, Option.map_some']
  refine ⟨part1, part2, ?_, ?_⟩
  · exact (part2 cCfg "g" [cMsg1, cMsg2, cMsg3, cMsg4] 1 (by decide) (by decide) (by decide)
      (by decide) (by decide) (by decide)).1
  · rw [(part2 cCfg "g" [cMsg1, cMsg2, cMsg3, cMsg4] 1 (by decide) (by decide) (by decide)
      (by decide) (by decide) (by decide)).1]
    rfl

/-- Claim C6: a dispatch attempt whose summarizer call returns a hard error,
or whose delivery of the summary fails, leaves the group's buffer (slots,
count, cursor, id set, last flush time) exactly as before the attempt;
`Clear` is applied exactly on the skip and success outcomes, never on the
failure outcomes. -/
theorem claimC6 (b : MessageBuffer) (topic : String) (llmResp : Option String)
    (dateStr : String) (sendOk : Bool) (now : ℚ) :
    (((generateAndSendSummary b topic llmResp dateStr sendOk now).2
          = DispatchOutcome.genFailed ∨
      (generateAndSendSummary b topic llmResp dateStr sendOk now).2
          = DispatchOutcome.sendFailed) →
      (generateAndSendSummary b topic llmResp dateStr sendOk now).1 = b) ∧
    (∀ r, (generateAndSendSummary b topic llmResp dateStr sendOk now).2
          = DispatchOutcome.skipped r →
      (generateAndSendSummary b topic llmResp dateStr sendOk now).1
        = MessageBuffer.clear b topic now) ∧
    ((generateAndSendSummary b topic llmResp dateStr sendOk now).2 = DispatchOutcome.sent →
      (generateAndSendSummary b topic llmResp dateStr sendOk now).1
        = MessageBuffer.clear b topic now) := by
  cases hgen : generate b topic llmResp dateStr with
  | error e => simp [generateAndSendSummary, hgen]
  | ok result =>
      by_cases hskip : result.skipReason = ""
      · cases sendOk with
        | true => simp [generateAndSendSummary, hgen, hskip]
        | false => simp [generateAndSendSummary, hgen, hskip]
      · simp [generateAndSendSummary, hgen, hskip]

/-- Witness for C6: LLM error, delivery failure, and the sentinel skip on a
one-message buffer. -/
theorem claimC6_witness :
    (generateAndSendSummary cBuf1 "g" none "d" true 0).1 = cBuf1 ∧
    (generateAndSendSummary cBuf1 "g" (some "hello") "d" false 0).1 = cBuf1 ∧
    (generateAndSendSummary cBuf1 "g" (some "暂无重要更新") "d" true 0).1
      = MessageBuffer.clear cBuf1 "g" 0 :=
  ⟨(claimC6 cBuf1 "g" none "d" true 0).1 (Or.inl (by decide)),
   (claimC6 cBuf1 "g" (some "hello") "d" false 0).1 (Or.inr (by decide)),
   (claimC6 cBuf1 "g" (some "暂无重要更新") "d" true 0).2.1 "no_important_update" (by decide)⟩

/-- Claim C7: a dispatch that finds the buffer empty at snapshot time, or
whose summarizer answers with the "nothing noteworthy" sentinel, completes
as a benign skip: `Generate` returns a skip result and no error, the buffer
is cleared (its count becomes 0), and when the dispatch was started idle the
claim marker is back out of the active set when the task completes. -/
theorem claimC7 (b : MessageBuffer) (topic : String) (llmResp : Option String)
    (dateStr : String) (sendOk : Bool) (now : ℚ) (active : List String)
    (hidle : topic ∉ active) :
    ((b.getSnapshot topic).count = 0 →
      generate b topic llmResp dateStr = Except.ok ⟨"", "empty_buffer"⟩ ∧
      generateAndSendSummary b topic llmResp dateStr sendOk now
        = (MessageBuffer.clear b topic now, DispatchOutcome.skipped "empty_buffer") ∧
      ((MessageBuffer.clear b topic now).getSnapshot topic).count = 0) ∧
    (∀ s, llmResp = some s → trimSpace s = "暂无重要更新" →
      (b.getSnapshot topic).count ≠ 0 →
      generate b topic llmResp dateStr = Except.ok ⟨"", "no_important_update"⟩ ∧
      generateAndSendSummary b topic llmResp dateStr sendOk now
        = (MessageBuffer.clear b topic now, DispatchOutcome.skipped "no_important_update") ∧
      ((MessageBuffer.clear b topic now).getSnapshot topic).count = 0) ∧
    ((triggerSummary active b topic llmResp dateStr sendOk now).1.1 = active ∧
      (triggerSummary active b topic llmResp dateStr sendOk now).2 = true) := by
  refine ⟨?_, ?_, ?_⟩
  · intro hcnt
    have hgen : generate b topic llmResp dateStr = Except.ok ⟨"", "empty_buffer"⟩ := by
      rw [generate.eq_def]
      simp [hcnt]
    refine ⟨hgen, ?_, clear_getSnapshot_count b topic now⟩
    simp [generateAndSendSummary, hgen]
  · intro s hs hsent hne
    have hcontents := getSnapshot_contents_ne_nil b topic hne
    have hgen : generate b topic llmResp dateStr = Except.ok ⟨"", "no_important_update"⟩ := by
      rw [generate.eq_def, hs]
      simp [hne, hcontents, hsent]
    refine ⟨hgen, ?_, clear_getSnapshot_count b topic now⟩
    simp [generateAndSendSummary, hgen]
  · rw [triggerSummary, if_neg hidle]
    exact ⟨List.erase_cons_head topic active, rfl⟩

/-- Witness for C7: the empty buffer and the sentinel response on a
one-message buffer, dispatched from an idle state. -/
theorem claimC7_witness :
    generate MessageBuffer.new "g" (some "x") "d" = Except.ok ⟨"", "empty_buffer"⟩ ∧
    generate cBuf1 "g" (some " 暂无重要更新 ") "d"
      = Except.ok ⟨"", "no_important_update"⟩ ∧
    ((MessageBuffer.clear cBuf1 "g" 3).getSnapshot "g").count = 0 ∧
    (triggerSummary [] cBuf1 "g" none "d" true 3).1.1 = [] :=
  ⟨((claimC7 MessageBuffer.new "g" (some "x") "d" true 0 [] (by decide)).1 (by decide)).1,
   (((claimC7 cBuf1 "g" (some " 暂无重要更新 ") "d" true 3 [] (by decide)).2.1
      " 暂无重要更新 " rfl (by decide) (by decide)).1),
   (((claimC7 cBuf1 "g" (some " 暂无重要更新 ") "d" true 3 [] (by decide)).2.1
      " 暂无重要更新 " rfl (by decide) (by decide)).2.2),
   ((claimC7 cBuf1 "g" none "d" true 3 [] (by decide)).2.2.1)⟩

/-- Claim C1: in any linearized interleaving of the dispatcher's atomic
events (`LoadOrStore` on `tryDispatch`, the deferred `Delete` on `finish`),
for every group key: at most one task runs at a time; a `tryDispatch` on a
key whose claim marker is present is a silent no-op; a `tryDispatch` on an
idle key starts exactly one task; and when a running task finishes — on any
outcome, since the `Delete` is deferred — its marker is released, so that a
subsequent dispatch claims the key again. -/
theorem claimC1 (events : List DispEvent) (k : String) :
    (dispRun events).running.count k ≤ 1 ∧
    (k ∈ (dispRun events).active →
      dispStep (dispRun events) (DispEvent.tryDispatch k) = dispRun events) ∧
    (k ∉ (dispRun events).active →
      (dispStep (dispRun events) (DispEvent.tryDispatch k)).running.count k = 1) ∧
    (k ∈ (dispRun events).running →
      k ∉ (dispStep (dispRun events) (DispEvent.finish k)).active ∧
      k ∈ (dispStep (dispStep (dispRun events) (DispEvent.finish k))
            (DispEvent.tryDispatch k)).running) := by
  obtain ⟨heqv, hnd⟩ := dispRun_inv events
  refine ⟨?_, ?_, ?_, ?_⟩
  · exact List.nodup_iff_count_le_one.mp (heqv ▸ hnd) k
  · intro hk
    rw [dispStep, if_pos hk]
  · intro hk
    rw [dispStep, if_neg hk]
    rw [List.count_cons_self, List.count_eq_zero.mpr (heqv ▸ hk)]
  · intro hk
    have hfin : dispStep (dispRun events) (DispEvent.finish k)
        = ⟨(dispRun events).active.erase k, (dispRun events).running.erase k⟩ := by
      rw [dispStep, if_pos hk]
    have hnotact : k ∉ (dispRun events).active.erase k := hnd.not_mem_erase
    rw [hfin]
    refine ⟨hnotact, ?_⟩
    simp [dispStep, hnotact]

/-- Witness for C1 on a concrete trace: after one successful dispatch of
`"g"`, a second `tryDispatch "g"` is a no-op; after the task finishes the
key is claimable again. -/
theorem claimC1_witness :
    (dispRun [DispEvent.tryDispatch "g"]).running.count "g" ≤ 1 ∧
    dispStep (dispRun [DispEvent.tryDispatch "g"]) (DispEvent.tryDispatch "g")
      = dispRun [DispEvent.tryDispatch "g"] ∧
    (dispStep (dispRun []) (DispEvent.tryDispatch "g")).running.count "g" = 1 ∧
    "g" ∉ (dispStep (dispRun [DispEvent.tryDispatch "g"]) (DispEvent.finish "g")).active ∧
    "g" ∈ (dispStep (dispStep (dispRun [DispEvent.tryDispatch "g"]) (DispEvent.finish "g"))
            (DispEvent.tryDispatch "g")).running :=
  ⟨(claimC1 [DispEvent.tryDispatch "g"] "g").1,
   (claimC1 [DispEvent.tryDispatch "g"] "g").2.1 (by decide),
   (claimC1 [] "g").2.2.1 (by decide),
   ((claimC1 [DispEvent.tryDispatch "g"] "g").2.2.2 (by decide)).1,
   ((claimC1 [DispEvent.tryDispatch "g"] "g").2.2.2 (by decide)).2⟩

/-- Witness for C5: two adds below capacity come back in call order. -/
theorem claimC5_witness :
    (MessageBuffer.addAll cCfg MessageBuffer.new [cMsg1, cMsg2]).getSnapshot "g"
      = snapshotOfList [cMsg1, cMsg2] :=
  claimC5.1 cCfg "g" [cMsg1, cMsg2] (by decide) (by decide) (by decide) (by decide)
